import Mathlib

/-!
# cdcc: the compile-flags store (`db.c`)

A shallow embedding of `db_open`'s schema, `db_insert` and `db_query`, and the
properties of the store they implement.

The C code talks to two libraries that are not part of the repository:

* SQLite (prepare / bind / step / finalize on the table `cflags`), and
* GLib / GIO (current directory, path resolution, string joining).

Every call into them is an explicit input of the embedding: result codes are
supplied by an effect record, the rows a `SELECT` delivers by a result stream,
the path functions by a `GLib` record.  The table itself is a list of rows and
the only fact about SQL used is the one written in the schema text of
`db_open`: `PRIMARY KEY(dir, file) ON CONFLICT REPLACE`.
-/

namespace Cdcc

/-! ## SQLite result codes -/

/-- Result code `SQLITE_OK`. -/
def SQLITE_OK : Int := 0
/-- Result code `SQLITE_BUSY`. -/
def SQLITE_BUSY : Int := 5
/-- Result code `SQLITE_NOMEM`. -/
def SQLITE_NOMEM : Int := 7
/-- Result code `SQLITE_TOOBIG`. -/
def SQLITE_TOOBIG : Int := 18
/-- Result code `SQLITE_ROW`. -/
def SQLITE_ROW : Int := 100
/-- Result code `SQLITE_DONE`. -/
def SQLITE_DONE : Int := 101

/-! ## Data model -/

/-- One row of the table `cflags(dir TEXT, file TEXT, flags TEXT)`.  A `TEXT`
column may hold `NULL`, hence the options. -/
structure Row where
  dir : Option String
  file : Option String
  flags : Option String
  deriving DecidableEq, Repr

/-- The table `cflags`, in storage order. -/
abbrev Table := List Row

/-- Modelled from the spec: the header `db.h`, which declares `Record` and the
visitor type `db_query_result_fn`, is not among the sources.  The fields are
the ones `db_query` assigns (`rec.dir`, `rec.filename`, `rec.args`), each a
non-null string when the visitor sees it; the spec calls them directory, file
and flags. -/
structure Record where
  dir : String
  filename : String
  args : String
  deriving DecidableEq, Repr

/-- The row `db_insert` binds: `VALUES(?, ?, ?)` with three text values. -/
def mkRow (dir file flags : String) : Row :=
  ⟨some dir, some file, some flags⟩

/-- Whether row `r` has the primary key `(dir, file)`. -/
def Row.hasKey (r : Row) (dir file : String) : Bool :=
  decide (r.dir = some dir) && decide (r.file = some file)

/-- Whether all three columns of a row are present. -/
def Row.noNull (r : Row) : Bool :=
  r.dir.isSome && r.file.isSome && r.flags.isSome

/-- The record view of a row (absent columns read as the empty string; only
used on rows without `NULL`). -/
def Row.toRecord (r : Row) : Record :=
  ⟨r.dir.getD "", r.file.getD "", r.flags.getD ""⟩

/-- Effect of a successful `INSERT INTO cflags(dir, file, flags) VALUES(?, ?, ?)`
under the schema of `db_open`, `PRIMARY KEY(dir, file) ON CONFLICT REPLACE`:
rows holding the same key are deleted, then the new row is added. -/
def sql_insert_or_replace (t : Table) (dir file flags : String) : Table :=
  t.filter (fun r => !r.hasKey dir file) ++ [mkRow dir file flags]

/-! ## `db_query` -/

/-- What one call of `sqlite3_step` on the `SELECT` statement reports: the
result code and, for `SQLITE_ROW`, what `sqlite3_column_text` returns for the
columns 0, 1 and 2 (`none` is a `NULL` pointer). -/
structure StepResult where
  code : Int
  col0 : Option String
  col1 : Option String
  col2 : Option String
  deriving DecidableEq, Repr

/-- A step that delivers row `r`. -/
def StepResult.ofRow (r : Row) : StepResult :=
  ⟨SQLITE_ROW, r.dir, r.file, r.flags⟩

/-- A step that reports result code `c` without a row. -/
def StepResult.ofCode (c : Int) : StepResult :=
  ⟨c, none, none, none⟩

/-- The engine as `db_query` sees it: the result of `sqlite3_prepare_v2`, the
result of `sqlite3_bind_text` for the pattern, and the results of the
successive `sqlite3_step` calls.  A result set is finite: once the list is
used up, `sqlite3_step` reports `SQLITE_DONE`. -/
structure QueryFx where
  prepare : Int
  bind : String → Int
  steps : List StepResult

/-- Observable outcome of one `db_query` call. -/
structure QueryResult (σ : Type) where
  /-- The `gboolean` returned. -/
  ret : Bool
  /-- The caller's `user_data` after the call. -/
  user_data : σ
  /-- The visitor invocations, in order, each with the value it returned. -/
  calls : List (Record × Bool)
  /-- The result codes of the `sqlite3_step` calls made, in order. -/
  stepped : List Int
  /-- Number of rows skipped because of a `NULL` column. -/
  skipped : Nat
  /-- Whether `sqlite3_prepare_v2` produced a statement. -/
  prepared : Bool
  /-- Whether `sqlite3_finalize` was called on that statement. -/
  finalized : Bool

/-- Record a `sqlite3_step` result code in front of the rest of the run. -/
def QueryResult.afterStep {σ : Type} (c : Int) (r : QueryResult σ) : QueryResult σ :=
  { r with stepped := c :: r.stepped }

/-- Record a visitor invocation in front of the rest of the run. -/
def QueryResult.afterCall {σ : Type} (rec : Record) (b : Bool) (r : QueryResult σ) :
    QueryResult σ :=
  { r with calls := (rec, b) :: r.calls }

/-- Record a skipped row in front of the rest of the run. -/
def QueryResult.afterSkip {σ : Type} (r : QueryResult σ) : QueryResult σ :=
  { r with skipped := r.skipped + 1 }

/-- Leaving the loop of `db_query` (through `break` or `keep_going == FALSE`):
`sqlite3_finalize(stmt); return TRUE;`. -/
def db_query_exit {σ : Type} (u : σ) : QueryResult σ :=
  { ret := true, user_data := u, calls := [], stepped := [], skipped := 0,
    prepared := true, finalized := true }

/-- The `return FALSE;` of `db_query` after the statement was prepared (bind
failure and step error): the function returns at once, `sqlite3_finalize` is
not reached. -/
def db_query_fail {σ : Type} (u : σ) : QueryResult σ :=
  { ret := false, user_data := u, calls := [], stepped := [], skipped := 0,
    prepared := true, finalized := false }

/-- The loop `for (gboolean keep_going = TRUE; keep_going; )` of `db_query`,
entered with `keep_going == TRUE`, over the remaining step results. -/
def db_query_loop {σ : Type} (fn : Record → σ → Bool × σ) :
    List StepResult → σ → QueryResult σ
  | [], u =>
    -- exhausted result set: `res == SQLITE_DONE`, `break`
    (db_query_exit u).afterStep SQLITE_DONE
  | s :: rest, u =>
    if s.code = SQLITE_ROW then
      match s.col0, s.col1, s.col2 with
      | some dir, some filename, some args =>
        let rec_ : Record := ⟨dir, filename, args⟩
        let out := fn rec_ u
        if out.1 then
          -- `keep_going == TRUE`: next iteration
          ((db_query_loop fn rest out.2).afterCall rec_ true).afterStep s.code
        else
          -- `keep_going == FALSE`: the loop condition fails
          ((db_query_exit out.2).afterCall rec_ false).afterStep s.code
      | _, _, _ =>
        -- a `NULL` column: `continue`
        ((db_query_loop fn rest u).afterSkip).afterStep s.code
    else if s.code = SQLITE_DONE then
      (db_query_exit u).afterStep s.code
    else
      (db_query_fail u).afterStep s.code

/-- The function `db_query(db, path, fn, user_data)`.  The pattern `path` reaches
the engine through the bind; what the engine then delivers is `fx.steps`. -/
def db_query {σ : Type} (fx : QueryFx) (path : String)
    (fn : Record → σ → Bool × σ) (user_data : σ) : QueryResult σ :=
  if fx.prepare ≠ SQLITE_OK then
    { ret := false, user_data := user_data, calls := [], stepped := [], skipped := 0,
      prepared := false, finalized := false }
  else if fx.bind path ≠ SQLITE_OK then
    db_query_fail user_data
  else
    db_query_loop fn fx.steps user_data

/-- The rows `SELECT * from cflags WHERE dir GLOB ?` selects from table `t` for
pattern `pat`, given the engine's GLOB operator `glob pat text`.  A `NULL`
`dir` matches nothing. -/
def sql_select_glob (glob : String → String → Bool) (t : Table) (pat : String) : Table :=
  t.filter (fun r => match r.dir with
    | some d => glob pat d
    | none => false)

/-- An engine on which prepare, bind and every step succeed and which delivers
the rows `rows` (then `SQLITE_DONE`). -/
def QueryFx.delivering (rows : List Row) : QueryFx :=
  { prepare := SQLITE_OK, bind := fun _ => SQLITE_OK, steps := rows.map StepResult.ofRow }

/-- Whether a step delivers a row with a `NULL` column. -/
def StepResult.isNullRow (s : StepResult) : Bool :=
  decide (s.code = SQLITE_ROW) && !(s.col0.isSome && s.col1.isSome && s.col2.isSome)

/-- The record `db_query` builds from a step that delivers a row. -/
def StepResult.toRecord (s : StepResult) : Record :=
  ⟨s.col0.getD "", s.col1.getD "", s.col2.getD ""⟩

/-- The result stream with the rows that have a `NULL` column taken out. -/
def QueryFx.withoutNullRows (fx : QueryFx) : QueryFx :=
  { fx with steps := fx.steps.filter (fun s => !s.isNullRow) }

/-! ## The GLOB operator

SQLite's `GLOB` is only named in the SQL text of `db_query`.  The theorems
below hold for any operator; `sqlite_glob` is a reference model of the engine's
matcher (`*`, `?`, `[...]` with `^` and ranges, no escape character,
case-sensitive) used to evaluate concrete queries. -/

/-- The scan of a `[...]` set for the text character `c`: `prior` is the
previous set character (for ranges), `seen` whether `c` was found.  Returns the
flag and the pattern after the closing bracket, or `none` when the pattern ends
inside the set. -/
def globSetScan (c : Char) : Option Char → Bool → List Char → Option (Bool × List Char)
  | _, _, [] => none
  | _, seen, [c2] => if c2 = ']' then some (seen, []) else none
  | prior, seen, c2 :: hi :: rest2 =>
    if c2 = ']' then some (seen, hi :: rest2)
    else
      match prior with
      | some lo =>
        if c2 = '-' ∧ hi ≠ ']' then
          globSetScan c none (seen || (decide (lo ≤ c) && decide (c ≤ hi))) rest2
        else
          globSetScan c (some c2) (seen || decide (c = c2)) (hi :: rest2)
      | none => globSetScan c (some c2) (seen || decide (c = c2)) (hi :: rest2)

/-- Match the text character `c` against the set that starts after an opening
bracket: optional `^`, an optional literal first `]`, then the scan. -/
def globSet (c : Char) (p : List Char) : Option (Bool × List Char) :=
  let inv : Bool × List Char := match p with
    | '^' :: q => (true, q)
    | q => (false, q)
  let fst : Bool × List Char := match inv.2 with
    | ']' :: q => (decide (c = ']'), q)
    | q => (false, q)
  match globSetScan c none fst.1 fst.2 with
  | none => none
  | some (seen, rest) => some (seen != inv.1, rest)

/-- Whether `k` accepts some suffix of the text (what `*` may leave over). -/
def globStar (k : List Char → Bool) : List Char → Bool
  | [] => k []
  | c :: cs => k (c :: cs) || globStar k cs

/-- The matcher, with one unit of fuel per pattern character. -/
def globGo : Nat → List Char → List Char → Bool
  | 0, _, _ => false
  | _ + 1, [], s => s.isEmpty
  | n + 1, pc :: p, s =>
    if pc = '*' then globStar (globGo n p) s
    else
      match s with
      | [] => false
      | c :: s2 =>
        if pc = '?' then globGo n p s2
        else if pc = '[' then
          match globSet c p with
          | none => false
          | some (ok, rest) => ok && globGo n rest s2
        else decide (pc = c) && globGo n p s2

/-- Reference model of `text GLOB pat`. -/
def sqlite_glob (pat text : String) : Bool :=
  globGo (pat.data.length + 1) pat.data text.data

/-! ## GLib -/

/-- The GLib / GIO path functions `db_insert` calls, over a type `F` of `GFile`
objects.  `g_file_get_path` is nullable (`none` is the `NULL` pointer). -/
structure GLib (F : Type) where
  g_path_is_absolute : String → Bool
  g_file_new_for_path : String → F
  g_file_resolve_relative_path : F → String → F
  g_file_get_path : F → Option String

/-- The function `g_strjoinv(separator, str_array)`: the first string, then for
every further string the separator and the string; the empty string for an
empty array. -/
def g_strjoinv (separator : String) : List String → String
  | [] => ""
  | s :: rest => rest.foldl (fun acc x => acc ++ separator ++ x) s

/-- Split a path at every `/`. -/
def splitSlash : List Char → List (List Char)
  | [] => [[]]
  | c :: cs =>
    if c = '/' then [] :: splitSlash cs
    else
      match splitSlash cs with
      | [] => [[c]]
      | w :: ws => (c :: w) :: ws

/-- Drop the leading `/` characters. -/
def dropSlashes : List Char → List Char
  | [] => []
  | c :: cs => if c = '/' then dropSlashes cs else c :: cs

/-- The leading `/` characters. -/
def takeSlashes : List Char → List Char
  | [] => []
  | c :: cs => if c = '/' then c :: takeSlashes cs else []

/-- Lexical clean-up of path components: empty and `.` components go, `..`
removes the component before it (and nothing at the root).  `acc` holds the
components kept so far, last first. -/
def canonComponents : List (List Char) → List (List Char) → List (List Char)
  | acc, [] => acc.reverse
  | acc, comp :: rest =>
    if comp = [] ∨ comp = ['.'] then canonComponents acc rest
    else if comp = ['.', '.'] then canonComponents acc.tail rest
    else canonComponents (comp :: acc) rest

/-- Reference model of `g_build_filename(a, b, NULL)` on POSIX. -/
def g_build_filename (a b : String) : String :=
  if b.data = [] then a
  else if a.data = [] then b
  else
    let coreA := (dropSlashes (dropSlashes a.data).reverse).reverse
    let coreB := (dropSlashes (dropSlashes b.data).reverse).reverse
    let trailB := takeSlashes b.data.reverse
    ⟨takeSlashes a.data ++ coreA ++ (if coreA ≠ [] ∧ coreB ≠ [] then ['/'] else []) ++
      coreB ++ trailB⟩

/-- Reference model of `g_canonicalize_filename(filename, relative_to)` on
POSIX: an absolute path without empty, `.` or `..` components and without a
trailing `/`; exactly two leading slashes are kept. -/
def g_canonicalize_filename (filename relative_to : String) : String :=
  let full : String :=
    if filename.data.head? = some '/' then filename else g_build_filename relative_to filename
  let root : List Char := if (takeSlashes full.data).length = 2 then ['/', '/'] else ['/']
  ⟨root ++ List.intercalate ['/'] (canonComponents [] (splitSlash full.data))⟩

/-- The absolute path with the given components. -/
def pathOf (comps : List (List Char)) : String :=
  ⟨'/' :: List.intercalate ['/'] comps⟩

/-- The relative path with the given components. -/
def relPathOf (comps : List (List Char)) : String :=
  ⟨List.intercalate ['/'] comps⟩

/-- A plain path component: not empty, without `/`, neither `.` nor `..`. -/
def PlainComponent (c : List Char) : Prop :=
  c ≠ [] ∧ '/' ∉ c ∧ c ≠ ['.'] ∧ c ≠ ['.', '.']

instance (c : List Char) : Decidable (PlainComponent c) := by
  unfold PlainComponent
  infer_instance

/-- Reference model of GLib on POSIX for a process whose current directory is
`cwd`: a `GFile` is a local file given by its canonical file name, which
`g_file_get_path` returns. -/
def posixGLib (cwd : String) : GLib String where
  g_path_is_absolute := fun p => decide (p.data.head? = some '/')
  g_file_new_for_path := fun p => g_canonicalize_filename p cwd
  g_file_resolve_relative_path := fun dir rel =>
    if rel.data.head? = some '/' then g_canonicalize_filename rel cwd
    else g_canonicalize_filename (g_build_filename dir rel) cwd
  g_file_get_path := fun f => some f

/-! ## `db_insert` -/

/-- The engine as `db_insert` sees it: the result of `sqlite3_prepare_v2`, the
result of `sqlite3_bind_text` for the file at position `i` (from 0) and
parameter `k` (1, 2, 3), and the result of `sqlite3_step` for the file at
position `i`. -/
structure InsertFx where
  prepare : Int
  bind : Nat → Nat → Int
  step : Nat → Int

/-- How a call ended: by returning, or by the run ending inside it.  The only
such place in `db_insert` is `strlen(abspath)` with `abspath == NULL`, which is
undefined behaviour in C (a segmentation fault in practice); rows written by
earlier iterations are already committed at that point. -/
inductive Exit where
  | returned
  | aborted
  deriving DecidableEq, Repr

/-- Observable outcome of one `db_insert` call. -/
structure InsertResult where
  /-- The table after the call. -/
  db : Table
  /-- The rows written by the call, in order. -/
  written : List Row
  /-- The references skipped with the warning "could not bind". -/
  skipped : List String
  /-- The reference that stopped the batch with "could not insert", if any. -/
  failed : Option String
  /-- How the call ended. -/
  exit : Exit
  deriving DecidableEq, Repr

/-- Record a row written in front of the rest of the run. -/
def InsertResult.afterWrite (row : Row) (r : InsertResult) : InsertResult :=
  { r with written := row :: r.written }

/-- Record a skipped reference in front of the rest of the run. -/
def InsertResult.afterSkip (fn : String) (r : InsertResult) : InsertResult :=
  { r with skipped := fn :: r.skipped }

/-- The `GFile` of a reference: `g_file_new_for_path(fn)` when
`g_path_is_absolute(fn)`, else `g_file_resolve_relative_path(dir, fn)`. -/
def resolve_file {F : Type} (G : GLib F) (dir : F) (fn : String) : F :=
  if G.g_path_is_absolute fn then G.g_file_new_for_path fn
  else G.g_file_resolve_relative_path dir fn

/-- The value of `abspath` for reference `fn` in a process whose current
directory is `cwd`. -/
def abspath {F : Type} (G : GLib F) (cwd fn : String) : Option String :=
  G.g_file_get_path (resolve_file G (G.g_file_new_for_path cwd) fn)

/-- The loop `for (iter = files; iter; iter = iter->next)` of `db_insert`; `i`
is the position of the head of the remaining list, `t` the table so far. -/
def db_insert_loop {F : Type} (G : GLib F) (cwd flags : String) (dir : F) (fx : InsertFx) :
    Nat → List String → Table → InsertResult
  | _, [], t => { db := t, written := [], skipped := [], failed := none, exit := .returned }
  | i, fn :: rest, t =>
    let f := resolve_file G dir fn
    let abspath := G.g_file_get_path f
    if fx.bind i 1 ≠ SQLITE_OK then
      (db_insert_loop G cwd flags dir fx (i + 1) rest t).afterSkip fn
    else
      match abspath with
      | none =>
        -- `strlen(abspath)` on a `NULL` pointer
        { db := t, written := [], skipped := [], failed := none, exit := .aborted }
      | some p =>
        if fx.bind i 2 ≠ SQLITE_OK then
          (db_insert_loop G cwd flags dir fx (i + 1) rest t).afterSkip fn
        else if fx.bind i 3 ≠ SQLITE_OK then
          (db_insert_loop G cwd flags dir fx (i + 1) rest t).afterSkip fn
        else if fx.step i ≠ SQLITE_DONE then
          -- `break`
          { db := t, written := [], skipped := [], failed := some fn, exit := .returned }
        else
          (db_insert_loop G cwd flags dir fx (i + 1) rest
            (sql_insert_or_replace t cwd p flags)).afterWrite (mkRow cwd p flags)

/-- The function `db_insert(db, files, argv)` in a process whose current
directory (`g_get_current_dir()`) is `cwd`. -/
def db_insert {F : Type} (G : GLib F) (cwd : String) (fx : InsertFx) (db : Table)
    (files : List String) (argv : List String) : InsertResult :=
  if fx.prepare ≠ SQLITE_OK then
    { db := db, written := [], skipped := [], failed := none, exit := .returned }
  else
    let flags := g_strjoinv " " argv
    let dir := G.g_file_new_for_path cwd
    db_insert_loop G cwd flags dir fx 0 files db

/-- An engine on which prepare, every bind and every step succeed. -/
def InsertFx.ok : InsertFx :=
  { prepare := SQLITE_OK, bind := fun _ _ => SQLITE_OK, step := fun _ => SQLITE_DONE }

/-- Whether the three binds for the file at position `i` all succeed. -/
def InsertFx.bindsOk (fx : InsertFx) (i : Nat) : Bool :=
  decide (fx.bind i 1 = SQLITE_OK) && decide (fx.bind i 2 = SQLITE_OK) &&
    decide (fx.bind i 3 = SQLITE_OK)

/-- Whether the step for the file at position `i` returns a result other than
`SQLITE_DONE`.  The step is only made once the three binds have succeeded. -/
def InsertFx.stepFails (fx : InsertFx) (i : Nat) : Bool :=
  fx.bindsOk i && decide (fx.step i ≠ SQLITE_DONE)

/-- The per-file failure policy in words: of the files (numbered from `i`),
those before the first file whose step returns a non-`DONE` result, that have
no bind failure and whose step returns `SQLITE_DONE`. -/
def policyFiles (fx : InsertFx) (i : Nat) (files : List String) : List String :=
  (((List.enumFrom i files).takeWhile (fun p => !fx.stepFails p.1)).filter
    (fun p => fx.bindsOk p.1 && decide (fx.step p.1 = SQLITE_DONE))).map Prod.snd

/-- The path stored for reference `fn` (the empty string stands in for a
missing path; only used where the reference resolves). -/
def storedPath {F : Type} (G : GLib F) (cwd fn : String) : String :=
  (abspath G cwd fn).getD ""

/-- The table after writing rows for the paths `paths`, in order. -/
def persist (t : Table) (cwd flags : String) (paths : List String) : Table :=
  paths.foldl (fun acc p => sql_insert_or_replace acc cwd p flags) t

/-- A table with the `dir` values `/a/b`, `/a/c` and `/z`. -/
def exampleTable : Table :=
  [mkRow "/a/b" "/a/b/x.c" "-O2", mkRow "/a/c" "/a/c/y.c" "-O1", mkRow "/z" "/z/w.c" "-g"]

/-- A visitor that appends each record to its `user_data` and asks for more. -/
def collect (r : Record) (seen : List Record) : Bool × List Record :=
  (true, seen ++ [r])

/-- A visitor that appends each record to its `user_data` and stops. -/
def takeFirst (r : Record) (seen : List Record) : Bool × List Record :=
  (false, seen ++ [r])

/-- An engine on which the second bind of the file at position 1 fails and the
step of the file at position 3 reports `SQLITE_BUSY`. -/
def exampleFx : InsertFx :=
  { prepare := SQLITE_OK,
    bind := fun i k => if i = 1 ∧ k = 2 then SQLITE_NOMEM else SQLITE_OK,
    step := fun i => if i = 3 then SQLITE_BUSY else SQLITE_DONE }

/-- A result stream in which the second of three rows has a `NULL` column. -/
def exampleStream : List StepResult :=
  [StepResult.ofRow (mkRow "/a/b" "/a/b/x.c" "-O2"),
   StepResult.ofRow ⟨some "/a/b", none, some "-O0"⟩,
   StepResult.ofRow (mkRow "/a/c" "/a/c/y.c" "-O1")]

/-! ## Facts about the query loop -/

section QueryLemmas

variable {σ : Type}

@[simp] theorem afterStep_ret (c : Int) (r : QueryResult σ) : (r.afterStep c).ret = r.ret := rfl
@[simp] theorem afterStep_calls (c : Int) (r : QueryResult σ) :
    (r.afterStep c).calls = r.calls := rfl
@[simp] theorem afterStep_user (c : Int) (r : QueryResult σ) :
    (r.afterStep c).user_data = r.user_data := rfl
@[simp] theorem afterStep_stepped (c : Int) (r : QueryResult σ) :
    (r.afterStep c).stepped = c :: r.stepped := rfl
@[simp] theorem afterStep_finalized (c : Int) (r : QueryResult σ) :
    (r.afterStep c).finalized = r.finalized := rfl
@[simp] theorem afterStep_prepared (c : Int) (r : QueryResult σ) :
    (r.afterStep c).prepared = r.prepared := rfl
@[simp] theorem afterCall_ret (x : Record) (b : Bool) (r : QueryResult σ) :
    (r.afterCall x b).ret = r.ret := rfl
@[simp] theorem afterCall_calls (x : Record) (b : Bool) (r : QueryResult σ) :
    (r.afterCall x b).calls = (x, b) :: r.calls := rfl
@[simp] theorem afterCall_user (x : Record) (b : Bool) (r : QueryResult σ) :
    (r.afterCall x b).user_data = r.user_data := rfl
@[simp] theorem afterCall_stepped (x : Record) (b : Bool) (r : QueryResult σ) :
    (r.afterCall x b).stepped = r.stepped := rfl
@[simp] theorem afterCall_finalized (x : Record) (b : Bool) (r : QueryResult σ) :
    (r.afterCall x b).finalized = r.finalized := rfl
@[simp] theorem afterCall_prepared (x : Record) (b : Bool) (r : QueryResult σ) :
    (r.afterCall x b).prepared = r.prepared := rfl
@[simp] theorem afterSkip_ret (r : QueryResult σ) : r.afterSkip.ret = r.ret := rfl
@[simp] theorem afterSkip_calls (r : QueryResult σ) : r.afterSkip.calls = r.calls := rfl
@[simp] theorem afterSkip_user (r : QueryResult σ) : r.afterSkip.user_data = r.user_data := rfl
@[simp] theorem afterSkip_stepped (r : QueryResult σ) : r.afterSkip.stepped = r.stepped := rfl
@[simp] theorem afterSkip_finalized (r : QueryResult σ) :
    r.afterSkip.finalized = r.finalized := rfl
@[simp] theorem afterSkip_prepared (r : QueryResult σ) :
    r.afterSkip.prepared = r.prepared := rfl

/-- One unfolding of the loop at a row whose three columns are present. -/
theorem db_query_loop_row (fn : Record → σ → Bool × σ) (d f a : String)
    (rest : List StepResult) (u : σ) :
    db_query_loop fn (⟨SQLITE_ROW, some d, some f, some a⟩ :: rest) u =
      if (fn ⟨d, f, a⟩ u).1 then
        ((db_query_loop fn rest (fn ⟨d, f, a⟩ u).2).afterCall ⟨d, f, a⟩ true).afterStep SQLITE_ROW
      else
        ((db_query_exit (fn ⟨d, f, a⟩ u).2).afterCall ⟨d, f, a⟩ false).afterStep SQLITE_ROW := by
  simp [db_query_loop]

/-- One unfolding of the loop at a row with a `NULL` column. -/
theorem db_query_loop_null (fn : Record → σ → Bool × σ) (s : StepResult)
    (rest : List StepResult) (u : σ) (h : s.isNullRow = true) :
    db_query_loop fn (s :: rest) u = ((db_query_loop fn rest u).afterSkip).afterStep s.code := by
  obtain ⟨c, c0, c1, c2⟩ := s
  simp only [StepResult.isNullRow, Bool.and_eq_true, decide_eq_true_eq] at h
  obtain ⟨hc, hn⟩ := h
  subst hc
  cases c0 <;> cases c1 <;> cases c2 <;> simp_all [db_query_loop]

/-- One unfolding of the loop at a step that reports `SQLITE_DONE`. -/
theorem db_query_loop_done (fn : Record → σ → Bool × σ) (s : StepResult)
    (rest : List StepResult) (u : σ) (h : s.code = SQLITE_DONE) :
    db_query_loop fn (s :: rest) u = (db_query_exit u).afterStep s.code := by
  have hne : s.code ≠ SQLITE_ROW := by rw [h]; decide
  rw [db_query_loop, if_neg hne, if_pos h]

/-- One unfolding of the loop at a step that reports an error. -/
theorem db_query_loop_err (fn : Record → σ → Bool × σ) (s : StepResult)
    (rest : List StepResult) (u : σ) (h1 : s.code ≠ SQLITE_ROW) (h2 : s.code ≠ SQLITE_DONE) :
    db_query_loop fn (s :: rest) u = (db_query_fail u).afterStep s.code := by
  simp [db_query_loop, h1, h2]

/-- On rows without `NULL` and with a visitor that always continues, the loop
visits every row in order and ends with `TRUE`, the statement finalized. -/
theorem db_query_loop_all (fn : Record → σ → Bool × σ) (hfn : ∀ r v, (fn r v).1 = true)
    (rows : List Row) (hnn : ∀ r ∈ rows, r.noNull = true) (u : σ) :
    (db_query_loop fn (rows.map StepResult.ofRow) u).ret = true ∧
    (db_query_loop fn (rows.map StepResult.ofRow) u).calls.map Prod.fst
      = rows.map Row.toRecord ∧
    (∀ c ∈ (db_query_loop fn (rows.map StepResult.ofRow) u).calls, c.2 = true) ∧
    (db_query_loop fn (rows.map StepResult.ofRow) u).finalized = true := by
  induction rows generalizing u with
  | nil => simp [db_query_loop, db_query_exit]
  | cons r rows ih =>
    obtain ⟨d, f, a⟩ := r
    have hr := hnn ⟨d, f, a⟩ (List.mem_cons_self _ _)
    cases d <;> cases f <;> cases a <;> simp [Row.noNull] at hr
    rename_i d f a
    have ih2 := ih (fun x hx => hnn x (List.mem_cons_of_mem _ hx)) (fn ⟨d, f, a⟩ u).2
    simp only [List.map_cons, StepResult.ofRow, db_query_loop_row, hfn, if_true]
    simp only [afterStep_ret, afterCall_ret, afterStep_calls, afterCall_calls,
      afterStep_finalized, afterCall_finalized, List.map_cons, Row.toRecord, Option.getD_some]
    refine ⟨ih2.1, by rw [ih2.2.1], ?_, ih2.2.2.2⟩
    intro c hc
    rcases List.mem_cons.1 hc with h | h
    · rw [h]
    · exact ih2.2.2.1 c h

/-- Rows selected by the GLOB query come from the table. -/
theorem sql_select_glob_subset (glob : String → String → Bool) (t : Table) (pat : String) :
    ∀ r ∈ sql_select_glob glob t pat, r ∈ t := by
  intro r hr
  exact (List.mem_filter.1 hr).1

/-- C2 (glob query correctness): on a table without `NULL` fields, for any
pattern and any GLOB operator, when prepare, bind and every step succeed and
the engine delivers the selected rows (in whatever order), a visitor that
always returns true is invoked exactly once for each row whose `dir` matches
the pattern and for no other row, and `db_query` returns `TRUE`; when no `dir`
matches, the visitor is never invoked. -/
theorem db_query_glob_correct (glob : String → String → Bool) (t : Table) (pat : String)
    (rows : List Row) (fn : Record → σ → Bool × σ) (u : σ)
    (hnn : ∀ r ∈ t, r.noNull = true)
    (hsel : rows.Perm (sql_select_glob glob t pat))
    (hfn : ∀ r v, (fn r v).1 = true) :
    (db_query (QueryFx.delivering rows) pat fn u).ret = true ∧
    ((db_query (QueryFx.delivering rows) pat fn u).calls.map Prod.fst).Perm
      ((t.filter (fun r => match r.dir with
        | some d => glob pat d
        | none => false)).map Row.toRecord) ∧
    (sql_select_glob glob t pat = [] →
      (db_query (QueryFx.delivering rows) pat fn u).calls = []) := by
  have hrows : ∀ r ∈ rows, r.noNull = true := fun r hr =>
    hnn r (sql_select_glob_subset glob t pat r (hsel.subset hr))
  have h := db_query_loop_all fn hfn rows hrows u
  have hq : db_query (QueryFx.delivering rows) pat fn u
      = db_query_loop fn (rows.map StepResult.ofRow) u := by
    simp [db_query, QueryFx.delivering]
  rw [hq]
  refine ⟨h.1, ?_, ?_⟩
  · rw [h.2.1]
    exact hsel.map _
  · intro hempty
    rw [hempty] at hsel
    have : rows = [] := List.Perm.eq_nil hsel
    subst this
    simp [db_query_loop, db_query_exit]

/-- Witness for C2: the table with `dir` values `/a/b`, `/a/c`, `/z` queried
with `/a/*` delivers exactly the `/a/b` and `/a/c` rows; queried with `/q/*`,
which matches no `dir`, it returns `TRUE` without invoking the visitor. -/
theorem db_query_glob_correct_witness :
    (∀ r ∈ exampleTable, r.noNull = true) ∧
    (db_query (QueryFx.delivering (sql_select_glob sqlite_glob exampleTable "/a/*")) "/a/*"
      collect []).ret = true ∧
    ((db_query (QueryFx.delivering (sql_select_glob sqlite_glob exampleTable "/a/*")) "/a/*"
      collect []).calls.map Prod.fst).Perm
        [⟨"/a/b", "/a/b/x.c", "-O2"⟩, ⟨"/a/c", "/a/c/y.c", "-O1"⟩] ∧
    (db_query (QueryFx.delivering (sql_select_glob sqlite_glob exampleTable "/q/*")) "/q/*"
      collect []).ret = true ∧
    (db_query (QueryFx.delivering (sql_select_glob sqlite_glob exampleTable "/q/*")) "/q/*"
      collect []).calls = [] :=
  ⟨by decide,
   (db_query_glob_correct sqlite_glob exampleTable "/a/*" _ collect [] (by decide)
      (List.Perm.refl _) (fun _ _ => rfl)).1,
   (db_query_glob_correct sqlite_glob exampleTable "/a/*" _ collect [] (by decide)
      (List.Perm.refl _) (fun _ _ => rfl)).2.1,
   (db_query_glob_correct sqlite_glob exampleTable "/q/*" _ collect [] (by decide)
      (List.Perm.refl _) (fun _ _ => rfl)).1,
   (db_query_glob_correct sqlite_glob exampleTable "/q/*" _ collect [] (by decide)
      (List.Perm.refl _) (fun _ _ => rfl)).2.2 (by decide)⟩

/-- With a visitor that returns false on the given `user_data`, the loop over
rows of which one has no `NULL` invokes it once and ends with `TRUE`. -/
theorem db_query_loop_first_false (fn : Record → σ → Bool × σ) (u : σ)
    (hfirst : ∀ r, (fn r u).1 = false) (rows : List Row)
    (hex : ∃ r ∈ rows, r.noNull = true) :
    (db_query_loop fn (rows.map StepResult.ofRow) u).ret = true ∧
    (db_query_loop fn (rows.map StepResult.ofRow) u).calls.length = 1 := by
  induction rows with
  | nil => simp at hex
  | cons r rows ih =>
    by_cases hr : r.noNull = true
    · obtain ⟨d, f, a⟩ := r
      cases d <;> cases f <;> cases a <;> simp [Row.noNull] at hr
      simp [StepResult.ofRow, db_query_loop_row, hfirst, db_query_exit]
    · have hnull : (StepResult.ofRow r).isNullRow = true := by
        simp only [Row.noNull] at hr
        simp [StepResult.isNullRow, StepResult.ofRow, hr]
      obtain ⟨x, hx, hxn⟩ := hex
      have hx2 : x ∈ rows := by
        rcases List.mem_cons.1 hx with h | h
        · subst h; exact absurd hxn hr
        · exact h
      have ih2 := ih ⟨x, hx2, hxn⟩
      rw [List.map_cons, db_query_loop_null fn _ _ u hnull]
      simpa using ih2

/-- In any run of the loop, an invocation that returned false is the last. -/
theorem db_query_loop_false_last (fn : Record → σ → Bool × σ) (steps : List StepResult)
    (u : σ) (pre post : List (Record × Bool)) (c : Record × Bool)
    (hc : (db_query_loop fn steps u).calls = pre ++ c :: post) (hf : c.2 = false) :
    post = [] := by
  induction steps generalizing u pre with
  | nil => simp [db_query_loop, db_query_exit] at hc
  | cons s rest ih =>
    by_cases hnull : s.isNullRow = true
    · rw [db_query_loop_null fn s rest u hnull] at hc
      exact ih u pre (by simpa using hc)
    · obtain ⟨code, c0, c1, c2⟩ := s
      by_cases hrow : code = SQLITE_ROW
      · subst hrow
        cases c0 <;> cases c1 <;> cases c2 <;> simp [StepResult.isNullRow] at hnull
        rename_i d f a
        rw [db_query_loop_row] at hc
        by_cases hk : (fn ⟨d, f, a⟩ u).1 = true
        · rw [if_pos hk] at hc
          simp only [afterStep_calls, afterCall_calls] at hc
          cases pre with
          | nil =>
            simp only [List.nil_append, List.cons.injEq] at hc
            rw [← hc.1] at hf
            simp at hf
          | cons x pre2 =>
            simp only [List.cons_append, List.cons.injEq] at hc
            exact ih _ pre2 hc.2
        · rw [if_neg hk] at hc
          simp only [afterStep_calls, afterCall_calls, db_query_exit] at hc
          cases pre with
          | nil =>
            simp only [List.nil_append, List.cons.injEq] at hc
            exact hc.2.symm
          | cons x pre2 =>
            simp at hc
      · by_cases hdone : code = SQLITE_DONE
        · rw [db_query_loop_done fn _ rest u hdone] at hc
          simp [db_query_exit] at hc
        · rw [db_query_loop_err fn _ rest u hrow hdone] at hc
          simp [db_query_fail] at hc

/-- C3 (early cancellation): for every table and pattern with at least one
matching row without `NULL`, a visitor that returns false on its first
invocation makes `db_query` return `TRUE` after exactly one invocation,
however many rows match; and in every run of `db_query`, with any engine and
any visitor, an invocation that returned false is the last one. -/
theorem db_query_early_cancel (glob : String → String → Bool) (t : Table) (pat : String)
    (rows : List Row) (fn : Record → σ → Bool × σ) (u : σ)
    (hsel : rows.Perm (sql_select_glob glob t pat))
    (hex : ∃ r ∈ sql_select_glob glob t pat, r.noNull = true)
    (hfirst : ∀ r, (fn r u).1 = false) :
    ((db_query (QueryFx.delivering rows) pat fn u).ret = true ∧
     (db_query (QueryFx.delivering rows) pat fn u).calls.length = 1) ∧
    (∀ (fx : QueryFx) (path : String) (visit : Record → σ → Bool × σ) (v : σ)
        (pre post : List (Record × Bool)) (c : Record × Bool),
      (db_query fx path visit v).calls = pre ++ c :: post → c.2 = false → post = []) := by
  constructor
  · have hq : db_query (QueryFx.delivering rows) pat fn u
        = db_query_loop fn (rows.map StepResult.ofRow) u := by
      simp [db_query, QueryFx.delivering]
    rw [hq]
    obtain ⟨r, hr, hrn⟩ := hex
    exact db_query_loop_first_false fn u hfirst rows ⟨r, hsel.symm.subset hr, hrn⟩
  · intro fx path visit v pre post c hc hf
    unfold db_query at hc
    split_ifs at hc with h1 h2
    · simp at hc
    · simp [db_query_fail] at hc
    · exact db_query_loop_false_last visit fx.steps v pre post c hc hf

/-- Witness for C3: on the example table, where `/a/*` matches two rows, a
visitor that stops at once is invoked once and `db_query` returns `TRUE`. -/
theorem db_query_early_cancel_witness :
    (∃ r ∈ sql_select_glob sqlite_glob exampleTable "/a/*", r.noNull = true) ∧
    (sql_select_glob sqlite_glob exampleTable "/a/*").length = 2 ∧
    (db_query (QueryFx.delivering (sql_select_glob sqlite_glob exampleTable "/a/*")) "/a/*"
      takeFirst []).ret = true ∧
    (db_query (QueryFx.delivering (sql_select_glob sqlite_glob exampleTable "/a/*")) "/a/*"
      takeFirst []).calls.length = 1 :=
  ⟨by decide, by decide,
   (db_query_early_cancel sqlite_glob exampleTable "/a/*" _ takeFirst []
      (List.Perm.refl _) (by decide) (fun _ => rfl)).1.1,
   (db_query_early_cancel sqlite_glob exampleTable "/a/*" _ takeFirst []
      (List.Perm.refl _) (by decide) (fun _ => rfl)).1.2⟩

/-- The four kinds of step result the loop distinguishes. -/
theorem StepResult.kinds (s : StepResult) :
    s.isNullRow = true ∨ (∃ d f a, s = ⟨SQLITE_ROW, some d, some f, some a⟩) ∨
    s.code = SQLITE_DONE ∨ (s.code ≠ SQLITE_ROW ∧ s.code ≠ SQLITE_DONE) := by
  obtain ⟨code, c0, c1, c2⟩ := s
  by_cases hrow : code = SQLITE_ROW
  · subst hrow
    cases c0 <;> cases c1 <;> cases c2 <;> simp [StepResult.isNullRow]
  · by_cases hdone : code = SQLITE_DONE
    · exact Or.inr (Or.inr (Or.inl hdone))
    · exact Or.inr (Or.inr (Or.inr ⟨hrow, hdone⟩))

/-- The loop returns `FALSE` exactly when one of the steps it made reported
something other than `SQLITE_ROW` and `SQLITE_DONE`. -/
theorem db_query_loop_ret_false_iff (fn : Record → σ → Bool × σ) (steps : List StepResult)
    (u : σ) :
    (db_query_loop fn steps u).ret = false ↔
      ∃ c ∈ (db_query_loop fn steps u).stepped, c ≠ SQLITE_ROW ∧ c ≠ SQLITE_DONE := by
  induction steps generalizing u with
  | nil => simp [db_query_loop, db_query_exit]
  | cons s rest ih =>
    rcases s.kinds with hnull | ⟨d, f, a, rfl⟩ | hdone | ⟨h1, h2⟩
    · have hcode : s.code = SQLITE_ROW := by
        simp only [StepResult.isNullRow, Bool.and_eq_true, decide_eq_true_eq] at hnull
        exact hnull.1
      rw [db_query_loop_null fn s rest u hnull]
      simp [ih u, hcode]
    · rw [db_query_loop_row]
      by_cases hk : (fn ⟨d, f, a⟩ u).1 = true
      · rw [if_pos hk]
        simp [ih]
      · rw [if_neg hk]
        simp [db_query_exit]
    · rw [db_query_loop_done fn s rest u hdone]
      simp [db_query_exit, hdone]
    · rw [db_query_loop_err fn s rest u h1 h2]
      simp [db_query_fail, h1, h2]

/-- The steps the loop makes are an initial segment of what the engine has to
deliver, the closing `SQLITE_DONE` included. -/
theorem db_query_loop_stepped_prefix (fn : Record → σ → Bool × σ) (steps : List StepResult)
    (u : σ) :
    (db_query_loop fn steps u).stepped <+: steps.map StepResult.code ++ [SQLITE_DONE] := by
  induction steps generalizing u with
  | nil => simp [db_query_loop, db_query_exit]
  | cons s rest ih =>
    rcases s.kinds with hnull | ⟨d, f, a, rfl⟩ | hdone | ⟨h1, h2⟩
    · rw [db_query_loop_null fn s rest u hnull]
      simpa [List.cons_prefix_cons] using ih u
    · rw [db_query_loop_row]
      by_cases hk : (fn ⟨d, f, a⟩ u).1 = true
      · rw [if_pos hk]
        simpa [List.cons_prefix_cons] using ih _
      · rw [if_neg hk]
        simp [db_query_exit, List.cons_prefix_cons]
    · rw [db_query_loop_done fn s rest u hdone]
      simp [db_query_exit, List.cons_prefix_cons]
    · rw [db_query_loop_err fn s rest u h1 h2]
      simp [db_query_fail, List.cons_prefix_cons]

/-- C4: `db_query` returns `FALSE` if and only if statement preparation fails,
binding the pattern fails, or one of the row-fetch steps it makes (an initial
segment of what the engine delivers) reports a result other than `SQLITE_ROW`
or `SQLITE_DONE`; in every other case, early stop by the visitor included, the
result is `TRUE`. -/
theorem db_query_false_iff (fx : QueryFx) (path : String) (fn : Record → σ → Bool × σ)
    (u : σ) :
    ((db_query fx path fn u).ret = false ↔
      (fx.prepare ≠ SQLITE_OK ∨ fx.bind path ≠ SQLITE_OK ∨
        ∃ c ∈ (db_query fx path fn u).stepped, c ≠ SQLITE_ROW ∧ c ≠ SQLITE_DONE)) ∧
    ((db_query fx path fn u).ret = true ↔
      (fx.prepare = SQLITE_OK ∧ fx.bind path = SQLITE_OK ∧
        ∀ c ∈ (db_query fx path fn u).stepped, c = SQLITE_ROW ∨ c = SQLITE_DONE)) ∧
    (db_query fx path fn u).stepped <+: fx.steps.map StepResult.code ++ [SQLITE_DONE] := by
  have key : (db_query fx path fn u).ret = false ↔
      (fx.prepare ≠ SQLITE_OK ∨ fx.bind path ≠ SQLITE_OK ∨
        ∃ c ∈ (db_query fx path fn u).stepped, c ≠ SQLITE_ROW ∧ c ≠ SQLITE_DONE) := by
    unfold db_query
    split_ifs with h1 h2
    · simp [h1]
    · simp [db_query_fail, h2]
    · have h1 : fx.prepare = SQLITE_OK := not_not.1 h1
      have h2 : fx.bind path = SQLITE_OK := not_not.1 h2
      rw [db_query_loop_ret_false_iff]
      simp [h1, h2]
  refine ⟨key, ?_, ?_⟩
  · rw [← Bool.not_eq_false, key]
    simp only [not_or, not_not, not_exists, not_and]
    constructor
    · rintro ⟨h1, h2, h3⟩
      refine ⟨h1, h2, fun c hc => ?_⟩
      by_cases hr : c = SQLITE_ROW
      · exact Or.inl hr
      · exact Or.inr (h3 c hc hr)
    · rintro ⟨h1, h2, h3⟩
      refine ⟨h1, h2, fun c hc hr => ?_⟩
      rcases h3 c hc with h | h
      · exact absurd h hr
      · exact h
  · unfold db_query
    split_ifs with h1 h2
    · simp
    · simp [db_query_fail]
    · exact db_query_loop_stepped_prefix fn fx.steps u

/-- The statement is finalized exactly on the paths that return `TRUE`. -/
theorem db_query_loop_finalized_iff (fn : Record → σ → Bool × σ) (steps : List StepResult)
    (u : σ) :
    (db_query_loop fn steps u).finalized = (db_query_loop fn steps u).ret ∧
    (db_query_loop fn steps u).prepared = true := by
  induction steps generalizing u with
  | nil => simp [db_query_loop, db_query_exit]
  | cons s rest ih =>
    rcases s.kinds with hnull | ⟨d, f, a, rfl⟩ | hdone | ⟨h1, h2⟩
    · rw [db_query_loop_null fn s rest u hnull]
      simpa using ih u
    · rw [db_query_loop_row]
      by_cases hk : (fn ⟨d, f, a⟩ u).1 = true
      · rw [if_pos hk]
        simpa using ih _
      · rw [if_neg hk]
        simp [db_query_exit]
    · rw [db_query_loop_done fn s rest u hdone]
      simp [db_query_exit]
    · rw [db_query_loop_err fn s rest u h1 h2]
      simp [db_query_fail]

/-- In `db_query` the prepared statement is finalized if and only if the call
returns `TRUE`: every `return FALSE` leaves before `sqlite3_finalize`. -/
theorem db_query_finalized_iff (fx : QueryFx) (path : String) (fn : Record → σ → Bool × σ)
    (u : σ) :
    (db_query fx path fn u).finalized = (db_query fx path fn u).ret := by
  unfold db_query
  split_ifs with h1 h2
  · rfl
  · rfl
  · exact (db_query_loop_finalized_iff fn fx.steps u).1

/-- C5 (fails on the code): the statement is prepared, yet not finalized when
`db_query` returns, (1) when binding the pattern fails and (2) when a step
reports an error after a row was delivered. -/
theorem db_query_leaks_statement_on_error :
    ((db_query ⟨SQLITE_OK, fun _ => SQLITE_TOOBIG, []⟩ "/a/*" collect []).prepared = true ∧
     (db_query ⟨SQLITE_OK, fun _ => SQLITE_TOOBIG, []⟩ "/a/*" collect []).finalized = false ∧
     (db_query ⟨SQLITE_OK, fun _ => SQLITE_TOOBIG, []⟩ "/a/*" collect []).ret = false) ∧
    ((db_query ⟨SQLITE_OK, fun _ => SQLITE_OK,
        [StepResult.ofRow (mkRow "/a/b" "/a/b/x.c" "-O2"), StepResult.ofCode SQLITE_BUSY]⟩
        "/a/*" collect []).prepared = true ∧
     (db_query ⟨SQLITE_OK, fun _ => SQLITE_OK,
        [StepResult.ofRow (mkRow "/a/b" "/a/b/x.c" "-O2"), StepResult.ofCode SQLITE_BUSY]⟩
        "/a/*" collect []).finalized = false ∧
     (db_query ⟨SQLITE_OK, fun _ => SQLITE_OK,
        [StepResult.ofRow (mkRow "/a/b" "/a/b/x.c" "-O2"), StepResult.ofCode SQLITE_BUSY]⟩
        "/a/*" collect []).ret = false) := by
  decide

/-- Rows with a `NULL` column are invisible to the loop: it behaves on a result
stream as on the stream without them. -/
theorem db_query_loop_filter_null (fn : Record → σ → Bool × σ) (steps : List StepResult)
    (u : σ) :
    (db_query_loop fn steps u).ret
      = (db_query_loop fn (steps.filter (fun s => !s.isNullRow)) u).ret ∧
    (db_query_loop fn steps u).calls
      = (db_query_loop fn (steps.filter (fun s => !s.isNullRow)) u).calls ∧
    (db_query_loop fn steps u).user_data
      = (db_query_loop fn (steps.filter (fun s => !s.isNullRow)) u).user_data := by
  induction steps generalizing u with
  | nil => simp
  | cons s rest ih =>
    by_cases hnull : s.isNullRow = true
    · rw [db_query_loop_null fn s rest u hnull, List.filter_cons_of_neg (by simp [hnull])]
      simpa using ih u
    · rw [List.filter_cons_of_pos (by simp [hnull])]
      rcases s.kinds with h | ⟨d, f, a, rfl⟩ | hdone | ⟨h1, h2⟩
      · exact absurd h hnull
      · rw [db_query_loop_row, db_query_loop_row]
        by_cases hk : (fn ⟨d, f, a⟩ u).1 = true
        · rw [if_pos hk, if_pos hk]
          simpa using ih _
        · rw [if_neg hk, if_neg hk]
          simp
      · rw [db_query_loop_done fn s _ u hdone, db_query_loop_done fn s _ u hdone]
        simp
      · rw [db_query_loop_err fn s _ u h1 h2, db_query_loop_err fn s _ u h1 h2]
        simp

/-- Every record the visitor receives comes from a delivered row whose three
columns are present. -/
theorem db_query_loop_calls_from_rows (fn : Record → σ → Bool × σ) (steps : List StepResult)
    (u : σ) :
    ∀ c ∈ (db_query_loop fn steps u).calls, ∃ s ∈ steps, s.isNullRow = false ∧
      s = ⟨SQLITE_ROW, some c.1.dir, some c.1.filename, some c.1.args⟩ := by
  induction steps generalizing u with
  | nil => simp [db_query_loop, db_query_exit]
  | cons s rest ih =>
    intro c hc
    rcases s.kinds with hnull | ⟨d, f, a, rfl⟩ | hdone | ⟨h1, h2⟩
    · rw [db_query_loop_null fn s rest u hnull] at hc
      obtain ⟨x, hx, hx2⟩ := ih u c (by simpa using hc)
      exact ⟨x, List.mem_cons_of_mem _ hx, hx2⟩
    · have hhere : ∃ x ∈ (⟨SQLITE_ROW, some d, some f, some a⟩ : StepResult) :: rest,
          x.isNullRow = false ∧ x = ⟨SQLITE_ROW, some d, some f, some a⟩ :=
        ⟨_, List.mem_cons_self _ _, by simp [StepResult.isNullRow], rfl⟩
      rw [db_query_loop_row] at hc
      by_cases hk : (fn ⟨d, f, a⟩ u).1 = true
      · rw [if_pos hk] at hc
        simp only [afterStep_calls, afterCall_calls, List.mem_cons] at hc
        rcases hc with h | h
        · subst h
          exact hhere
        · obtain ⟨x, hx, hx2⟩ := ih _ c h
          exact ⟨x, List.mem_cons_of_mem _ hx, hx2⟩
      · rw [if_neg hk] at hc
        simp only [afterStep_calls, afterCall_calls, db_query_exit, List.mem_singleton] at hc
        subst hc
        exact hhere
    · rw [db_query_loop_done fn s rest u hdone] at hc
      simp [db_query_exit] at hc
    · rw [db_query_loop_err fn s rest u h1 h2] at hc
      simp [db_query_fail] at hc

/-- On a stream of rows and with a visitor that always continues, the loop
delivers every row without `NULL`, in order, and ends with `TRUE`. -/
theorem db_query_loop_delivers_valid (fn : Record → σ → Bool × σ)
    (hfn : ∀ r v, (fn r v).1 = true) (steps : List StepResult)
    (hrows : ∀ s ∈ steps, s.code = SQLITE_ROW) (u : σ) :
    (db_query_loop fn steps u).ret = true ∧
    (db_query_loop fn steps u).calls.map Prod.fst
      = (steps.filter (fun s => !s.isNullRow)).map StepResult.toRecord := by
  induction steps generalizing u with
  | nil => simp [db_query_loop, db_query_exit]
  | cons s rest ih =>
    have ih2 := fun v => ih (fun x hx => hrows x (List.mem_cons_of_mem _ hx)) v
    have hs := hrows s (List.mem_cons_self _ _)
    rcases s.kinds with hnull | ⟨d, f, a, rfl⟩ | hdone | ⟨h1, h2⟩
    · rw [db_query_loop_null fn s rest u hnull, List.filter_cons_of_neg (by simp [hnull])]
      simpa using ih2 u
    · rw [db_query_loop_row, if_pos (hfn _ _),
        List.filter_cons_of_pos (by simp [StepResult.isNullRow])]
      simpa [StepResult.toRecord] using ih2 _
    · rw [hs] at hdone
      exact absurd hdone (by decide)
    · exact absurd hs h1

/-- C10: for every result stream, a fetched row in which `dir`, `file` or
`flags` is `NULL` is never passed to the visitor and changes nothing else:
`db_query` returns the same value, makes the same visitor calls and leaves the
same `user_data` as on the stream without such rows; every record the visitor
receives comes from a row with all three columns present; and when all steps
deliver rows and the visitor keeps returning true, every row without `NULL` is
delivered, in order, and the result is `TRUE`. -/
theorem db_query_null_rows_skipped (fx : QueryFx) (path : String)
    (fn : Record → σ → Bool × σ) (u : σ) :
    ((db_query fx path fn u).ret = (db_query fx.withoutNullRows path fn u).ret ∧
     (db_query fx path fn u).calls = (db_query fx.withoutNullRows path fn u).calls ∧
     (db_query fx path fn u).user_data = (db_query fx.withoutNullRows path fn u).user_data) ∧
    (∀ c ∈ (db_query fx path fn u).calls, ∃ s ∈ fx.steps, s.isNullRow = false ∧
      s = ⟨SQLITE_ROW, some c.1.dir, some c.1.filename, some c.1.args⟩) ∧
    (fx.prepare = SQLITE_OK → fx.bind path = SQLITE_OK → (∀ r v, (fn r v).1 = true) →
      (∀ s ∈ fx.steps, s.code = SQLITE_ROW) →
      (db_query fx path fn u).ret = true ∧
      (db_query fx path fn u).calls.map Prod.fst
        = (fx.steps.filter (fun s => !s.isNullRow)).map StepResult.toRecord) := by
  refine ⟨?_, ?_, ?_⟩
  · unfold db_query QueryFx.withoutNullRows
    split_ifs with h1 h2
    · exact ⟨rfl, rfl, rfl⟩
    · exact ⟨rfl, rfl, rfl⟩
    · exact db_query_loop_filter_null fn fx.steps u
  · unfold db_query
    split_ifs with h1 h2
    · simp
    · simp [db_query_fail]
    · exact db_query_loop_calls_from_rows fn fx.steps u
  · intro h1 h2 hfn hrows
    have hq : db_query fx path fn u = db_query_loop fn fx.steps u := by
      simp [db_query, h1, h2]
    rw [hq]
    exact db_query_loop_delivers_valid fn hfn fx.steps hrows u

/-- Witness for C10: on a stream of three rows whose second row has a `NULL`
file, the visitor receives the first and the third row and the result is
`TRUE`. -/
theorem db_query_null_rows_skipped_witness :
    (db_query ⟨SQLITE_OK, fun _ => SQLITE_OK, exampleStream⟩ "/a/*" collect []).ret = true ∧
    (db_query ⟨SQLITE_OK, fun _ => SQLITE_OK, exampleStream⟩ "/a/*" collect []).calls.map
      Prod.fst = [⟨"/a/b", "/a/b/x.c", "-O2"⟩, ⟨"/a/c", "/a/c/y.c", "-O1"⟩] :=
  (db_query_null_rows_skipped ⟨SQLITE_OK, fun _ => SQLITE_OK, exampleStream⟩ "/a/*" collect
    []).2.2 rfl rfl (fun _ _ => rfl) (by decide)

end QueryLemmas

/-! ## Facts about the POSIX path model -/

section PathLemmas

theorem intercalate_cons_cons (sep a b : List Char) (l : List (List Char)) :
    List.intercalate sep (a :: b :: l) = a ++ sep ++ List.intercalate sep (b :: l) := by
  simp [List.intercalate]

theorem intercalate_single (sep a : List Char) : List.intercalate sep [a] = a := by
  simp [List.intercalate]

theorem splitSlash_noslash (c : List Char) (h : '/' ∉ c) : splitSlash c = [c] := by
  induction c with
  | nil => rfl
  | cons x xs ih =>
    have hx : x ≠ '/' := fun e => h (e ▸ List.mem_cons_self _ _)
    have hxs : '/' ∉ xs := fun e => h (List.mem_cons_of_mem _ e)
    simp [splitSlash, hx, ih hxs]

theorem splitSlash_append (c rest : List Char) (h : '/' ∉ c) :
    splitSlash (c ++ '/' :: rest) = c :: splitSlash rest := by
  induction c with
  | nil => simp [splitSlash]
  | cons x xs ih =>
    have hx : x ≠ '/' := fun e => h (e ▸ List.mem_cons_self _ _)
    have hxs : '/' ∉ xs := fun e => h (List.mem_cons_of_mem _ e)
    simp [splitSlash, hx, ih hxs]

theorem splitSlash_intercalate (comps : List (List Char)) (hne : comps ≠ [])
    (h : ∀ c ∈ comps, '/' ∉ c) : splitSlash (List.intercalate ['/'] comps) = comps := by
  induction comps with
  | nil => exact absurd rfl hne
  | cons a l ih =>
    cases l with
    | nil => rw [intercalate_single]; exact splitSlash_noslash a (h a (List.mem_cons_self _ _))
    | cons b l =>
      rw [intercalate_cons_cons]
      have := splitSlash_append a (List.intercalate ['/'] (b :: l)) (h a (List.mem_cons_self _ _))
      simp only [List.append_assoc, List.singleton_append]
      rw [this, ih (by simp) (fun c hc => h c (List.mem_cons_of_mem _ hc))]

theorem canonComponents_plain (comps acc : List (List Char))
    (h : ∀ c ∈ comps, c ≠ [] ∧ c ≠ ['.'] ∧ c ≠ ['.', '.']) :
    canonComponents acc comps = acc.reverse ++ comps := by
  induction comps generalizing acc with
  | nil => simp [canonComponents]
  | cons c rest ih =>
    obtain ⟨h1, h2, h3⟩ := h c (List.mem_cons_self _ _)
    rw [canonComponents]
    simp only [h1, h2, h3, or_self, if_false]
    rw [ih _ (fun x hx => h x (List.mem_cons_of_mem _ hx))]
    simp

theorem dropSlashes_of_head (l : List Char) (h : l.head? ≠ some '/') : dropSlashes l = l := by
  cases l with
  | nil => rfl
  | cons x xs =>
    have hx : x ≠ '/' := fun e => h (by simp [e])
    simp [dropSlashes, hx]

theorem takeSlashes_of_head (l : List Char) (h : l.head? ≠ some '/') : takeSlashes l = [] := by
  cases l with
  | nil => rfl
  | cons x xs =>
    have hx : x ≠ '/' := fun e => h (by simp [e])
    simp [takeSlashes, hx]

theorem intercalate_head (comps : List (List Char)) (h : ∀ c ∈ comps, PlainComponent c) :
    (List.intercalate ['/'] comps).head? ≠ some '/' := by
  cases comps with
  | nil => simp [List.intercalate]
  | cons a l =>
    obtain ⟨h1, h2, -, -⟩ := h a (List.mem_cons_self _ _)
    cases a with
    | nil => exact absurd rfl h1
    | cons x xs =>
      have hx : x ≠ '/' := fun e => h2 (e ▸ List.mem_cons_self _ _)
      cases l with
      | nil => rw [intercalate_single]; simpa using hx
      | cons b l => rw [intercalate_cons_cons]; simpa using hx

theorem intercalate_ne_nil (comps : List (List Char)) (hne : comps ≠ [])
    (h : ∀ c ∈ comps, PlainComponent c) : List.intercalate ['/'] comps ≠ [] := by
  cases comps with
  | nil => exact absurd rfl hne
  | cons a l =>
    obtain ⟨h1, -, -, -⟩ := h a (List.mem_cons_self _ _)
    cases l with
    | nil => rw [intercalate_single]; exact h1
    | cons b l => rw [intercalate_cons_cons]; simp [h1]

theorem intercalate_reverse_head (comps : List (List Char))
    (h : ∀ c ∈ comps, PlainComponent c) :
    (List.intercalate ['/'] comps).reverse.head? ≠ some '/' := by
  induction comps with
  | nil => simp [List.intercalate]
  | cons a l ih =>
    cases l with
    | nil =>
      obtain ⟨h1, h2, -, -⟩ := h a (List.mem_cons_self _ _)
      rw [intercalate_single, List.head?_reverse]
      intro e
      exact h2 (List.mem_of_getLast?_eq_some e)
    | cons b l =>
      have ih2 := ih (fun c hc => h c (List.mem_cons_of_mem _ hc))
      have hne := intercalate_ne_nil (b :: l) (by simp)
        (fun c hc => h c (List.mem_cons_of_mem _ hc))
      rw [intercalate_cons_cons, List.reverse_append]
      rw [List.head?_append_of_ne_nil _ (by simpa using hne)]
      exact ih2

theorem intercalate_append (cs1 cs2 : List (List Char)) (h1 : cs1 ≠ []) (h2 : cs2 ≠ []) :
    List.intercalate ['/'] (cs1 ++ cs2)
      = List.intercalate ['/'] cs1 ++ '/' :: List.intercalate ['/'] cs2 := by
  induction cs1 with
  | nil => exact absurd rfl h1
  | cons a l ih =>
    cases l with
    | nil =>
      cases cs2 with
      | nil => exact absurd rfl h2
      | cons b l2 =>
        rw [intercalate_single]
        simp only [List.singleton_append]
        rw [intercalate_cons_cons]
        simp
    | cons b l =>
      simp only [List.cons_append]
      rw [intercalate_cons_cons, intercalate_cons_cons]
      have := ih (by simp)
      simp only [List.cons_append] at this
      rw [this]
      simp

theorem g_canonicalize_pathOf (comps : List (List Char)) (h : ∀ c ∈ comps, PlainComponent c)
    (rel : String) : g_canonicalize_filename (pathOf comps) rel = pathOf comps := by
  have hts : takeSlashes (List.intercalate ['/'] comps) = [] :=
    takeSlashes_of_head _ (intercalate_head comps h)
  have hcomp : canonComponents [] (splitSlash ('/' :: List.intercalate ['/'] comps)) = comps := by
    by_cases hne : comps = []
    · subst hne
      simp [List.intercalate, splitSlash, canonComponents]
    · have hs : splitSlash ('/' :: List.intercalate ['/'] comps) = [] :: comps := by
        rw [splitSlash, if_pos rfl, splitSlash_intercalate comps hne (fun c hc => (h c hc).2.1)]
      rw [hs, canonComponents, if_pos (Or.inl rfl),
        canonComponents_plain comps [] (fun c hc => ⟨(h c hc).1, (h c hc).2.2.1, (h c hc).2.2.2⟩)]
      simp
  simp [g_canonicalize_filename, pathOf, takeSlashes, hts, hcomp]

theorem g_build_filename_paths (cs1 cs2 : List (List Char)) (h1 : ∀ c ∈ cs1, PlainComponent c)
    (h2 : ∀ c ∈ cs2, PlainComponent c) (hne : cs2 ≠ []) :
    g_build_filename (pathOf cs1) (relPathOf cs2) = pathOf (cs1 ++ cs2) := by
  have hb := intercalate_ne_nil cs2 hne h2
  have hdA : dropSlashes (List.intercalate ['/'] cs1) = List.intercalate ['/'] cs1 :=
    dropSlashes_of_head _ (intercalate_head cs1 h1)
  have hdA2 : dropSlashes (List.intercalate ['/'] cs1).reverse
      = (List.intercalate ['/'] cs1).reverse :=
    dropSlashes_of_head _ (intercalate_reverse_head cs1 h1)
  have hdB : dropSlashes (List.intercalate ['/'] cs2) = List.intercalate ['/'] cs2 :=
    dropSlashes_of_head _ (intercalate_head cs2 h2)
  have hdB2 : dropSlashes (List.intercalate ['/'] cs2).reverse
      = (List.intercalate ['/'] cs2).reverse :=
    dropSlashes_of_head _ (intercalate_reverse_head cs2 h2)
  have htB : takeSlashes (List.intercalate ['/'] cs2).reverse = [] :=
    takeSlashes_of_head _ (intercalate_reverse_head cs2 h2)
  have htA : takeSlashes (List.intercalate ['/'] cs1) = [] :=
    takeSlashes_of_head _ (intercalate_head cs1 h1)
  unfold g_build_filename
  simp only [pathOf, relPathOf, hb, if_false, List.cons_ne_nil, dropSlashes, takeSlashes, if_true,
    hdA, hdA2, hdB, hdB2, htB, htA, List.reverse_reverse, List.append_nil]
  by_cases hc1 : cs1 = []
  · subst hc1
    simp [List.intercalate]
  · have ha := intercalate_ne_nil cs1 hc1 h1
    rw [intercalate_append cs1 cs2 hc1 hne]
    simp [ha, hb]

/-- In the POSIX model an absolute reference in normal form resolves to itself. -/
theorem abspath_posix_absolute (cwd : String) (comps : List (List Char))
    (h : ∀ c ∈ comps, PlainComponent c) :
    abspath (posixGLib cwd) cwd (pathOf comps) = some (pathOf comps) := by
  have habs : (posixGLib cwd).g_path_is_absolute (pathOf comps) = true := by
    simp [posixGLib, pathOf]
  unfold abspath resolve_file
  rw [if_pos habs]
  simp only [posixGLib]
  rw [g_canonicalize_pathOf comps h]

/-- In the POSIX model a relative reference in normal form resolves to the
base directory followed by the reference. -/
theorem abspath_posix_relative (cs1 cs2 : List (List Char))
    (h1 : ∀ c ∈ cs1, PlainComponent c) (h2 : ∀ c ∈ cs2, PlainComponent c) (hne : cs2 ≠ []) :
    abspath (posixGLib (pathOf cs1)) (pathOf cs1) (relPathOf cs2)
      = some (pathOf (cs1 ++ cs2)) := by
  have hhead : (relPathOf cs2).data.head? ≠ some '/' := intercalate_head cs2 h2
  have habs : (posixGLib (pathOf cs1)).g_path_is_absolute (relPathOf cs2) = false := by
    simp [posixGLib, hhead]
  have hall : ∀ c ∈ cs1 ++ cs2, PlainComponent c := by
    intro c hc
    rcases List.mem_append.1 hc with h | h
    · exact h1 c h
    · exact h2 c h
  unfold abspath resolve_file
  rw [habs]
  simp only [posixGLib, Bool.false_eq_true, if_false, hhead]
  rw [g_canonicalize_pathOf cs1 h1, g_build_filename_paths cs1 cs2 h1 h2 hne,
    g_canonicalize_pathOf _ hall]

end PathLemmas

/-! ## Facts about the insert loop -/

section InsertLemmas

variable {F : Type}

@[simp] theorem afterWrite_db (row : Row) (r : InsertResult) : (r.afterWrite row).db = r.db := rfl
@[simp] theorem afterWrite_written (row : Row) (r : InsertResult) :
    (r.afterWrite row).written = row :: r.written := rfl
@[simp] theorem afterWrite_skipped (row : Row) (r : InsertResult) :
    (r.afterWrite row).skipped = r.skipped := rfl
@[simp] theorem afterWrite_exit (row : Row) (r : InsertResult) :
    (r.afterWrite row).exit = r.exit := rfl
@[simp] theorem afterSkip_db (fn : String) (r : InsertResult) : (r.afterSkip fn).db = r.db := rfl
@[simp] theorem afterSkip_written (fn : String) (r : InsertResult) :
    (r.afterSkip fn).written = r.written := rfl
@[simp] theorem afterSkip_skipped (fn : String) (r : InsertResult) :
    (r.afterSkip fn).skipped = fn :: r.skipped := rfl
@[simp] theorem afterSkip_exit (fn : String) (r : InsertResult) :
    (r.afterSkip fn).exit = r.exit := rfl

/-- One iteration of the insert loop when a bind fails for a resolved file. -/
theorem db_insert_loop_bind_fail (G : GLib F) (cwd flags : String) (dir : F) (fx : InsertFx)
    (i : Nat) (fn : String) (rest : List String) (t : Table)
    (hres : (G.g_file_get_path (resolve_file G dir fn)).isSome)
    (hb : fx.bindsOk i = false) :
    db_insert_loop G cwd flags dir fx i (fn :: rest) t
      = (db_insert_loop G cwd flags dir fx (i + 1) rest t).afterSkip fn := by
  obtain ⟨p, hp⟩ := Option.isSome_iff_exists.1 hres
  simp only [InsertFx.bindsOk, Bool.and_eq_false_iff, decide_eq_false_iff_not] at hb
  rw [db_insert_loop]
  simp only [hp]
  by_cases h1 : fx.bind i 1 = SQLITE_OK
  · by_cases h2 : fx.bind i 2 = SQLITE_OK
    · have h3 : fx.bind i 3 ≠ SQLITE_OK := by
        rcases hb with (h | h) | h
        · exact absurd h1 h
        · exact absurd h2 h
        · exact h
      simp [h1, h2, h3]
    · simp [h1, h2]
  · simp [h1]

/-- One iteration of the insert loop when the first bind fails: the file is
skipped before its path is looked at. -/
theorem db_insert_loop_bind1_fail (G : GLib F) (cwd flags : String) (dir : F) (fx : InsertFx)
    (i : Nat) (fn : String) (rest : List String) (t : Table)
    (hb : fx.bind i 1 ≠ SQLITE_OK) :
    db_insert_loop G cwd flags dir fx i (fn :: rest) t
      = (db_insert_loop G cwd flags dir fx (i + 1) rest t).afterSkip fn := by
  rw [db_insert_loop]
  simp [hb]

/-- One iteration of the insert loop when the first bind succeeds and the
reference has no path: `strlen` is applied to `NULL` and the run ends there. -/
theorem db_insert_loop_abort (G : GLib F) (cwd flags : String) (dir : F) (fx : InsertFx)
    (i : Nat) (fn : String) (rest : List String) (t : Table)
    (hb : fx.bind i 1 = SQLITE_OK)
    (hp : G.g_file_get_path (resolve_file G dir fn) = none) :
    db_insert_loop G cwd flags dir fx i (fn :: rest) t
      = { db := t, written := [], skipped := [], failed := none, exit := .aborted } := by
  rw [db_insert_loop]
  simp [hb, hp]

/-- One iteration of the insert loop when the binds succeed and the step does
not return `SQLITE_DONE`: the batch stops. -/
theorem db_insert_loop_step_fail (G : GLib F) (cwd flags : String) (dir : F) (fx : InsertFx)
    (i : Nat) (fn : String) (rest : List String) (t : Table)
    (hres : (G.g_file_get_path (resolve_file G dir fn)).isSome)
    (hb : fx.bindsOk i = true) (hs : fx.step i ≠ SQLITE_DONE) :
    db_insert_loop G cwd flags dir fx i (fn :: rest) t
      = { db := t, written := [], skipped := [], failed := some fn, exit := .returned } := by
  obtain ⟨p, hp⟩ := Option.isSome_iff_exists.1 hres
  simp only [InsertFx.bindsOk, Bool.and_eq_true, decide_eq_true_eq] at hb
  rw [db_insert_loop]
  simp [hp, hb.1.1, hb.1.2, hb.2, hs]

/-- One iteration of the insert loop when the binds and the step succeed: the
row is written (replacing a row with the same key) and the loop goes on. -/
theorem db_insert_loop_write (G : GLib F) (cwd flags : String) (dir : F) (fx : InsertFx)
    (i : Nat) (fn p : String) (rest : List String) (t : Table)
    (hp : G.g_file_get_path (resolve_file G dir fn) = some p)
    (hb : fx.bindsOk i = true) (hs : fx.step i = SQLITE_DONE) :
    db_insert_loop G cwd flags dir fx i (fn :: rest) t
      = (db_insert_loop G cwd flags dir fx (i + 1) rest
          (sql_insert_or_replace t cwd p flags)).afterWrite (mkRow cwd p flags) := by
  simp only [InsertFx.bindsOk, Bool.and_eq_true, decide_eq_true_eq] at hb
  rw [db_insert_loop]
  simp [hp, hb.1.1, hb.1.2, hb.2, hs]

/-- The files the policy keeps, when the first file has a bind failure. -/
theorem policyFiles_bind_fail (fx : InsertFx) (i : Nat) (fn : String) (rest : List String)
    (hb : fx.bindsOk i = false) :
    policyFiles fx i (fn :: rest) = policyFiles fx (i + 1) rest := by
  simp [policyFiles, List.enumFrom_cons, InsertFx.stepFails, hb]

/-- The files the policy keeps, when the step of the first file fails. -/
theorem policyFiles_step_fail (fx : InsertFx) (i : Nat) (fn : String) (rest : List String)
    (hb : fx.bindsOk i = true) (hs : fx.step i ≠ SQLITE_DONE) :
    policyFiles fx i (fn :: rest) = [] := by
  simp [policyFiles, List.enumFrom_cons, InsertFx.stepFails, hb, hs]

/-- The files the policy keeps, when the first file is bound and stepped. -/
theorem policyFiles_write (fx : InsertFx) (i : Nat) (fn : String) (rest : List String)
    (hb : fx.bindsOk i = true) (hs : fx.step i = SQLITE_DONE) :
    policyFiles fx i (fn :: rest) = fn :: policyFiles fx (i + 1) rest := by
  simp [policyFiles, List.enumFrom_cons, InsertFx.stepFails, hb, hs]

/-- The insert loop implements the per-file policy: on references that all
resolve it returns, having written the rows of the files the policy keeps. -/
theorem db_insert_loop_policy (G : GLib F) (cwd flags : String) (dir : F) (fx : InsertFx)
    (files : List String)
    (hres : ∀ fn ∈ files, (G.g_file_get_path (resolve_file G dir fn)).isSome)
    (i : Nat) (t : Table) :
    (db_insert_loop G cwd flags dir fx i files t).written
      = (policyFiles fx i files).map
          (fun fn => mkRow cwd ((G.g_file_get_path (resolve_file G dir fn)).getD "") flags) ∧
    (db_insert_loop G cwd flags dir fx i files t).db
      = persist t cwd flags ((policyFiles fx i files).map
          (fun fn => (G.g_file_get_path (resolve_file G dir fn)).getD "")) ∧
    (db_insert_loop G cwd flags dir fx i files t).exit = Exit.returned := by
  induction files generalizing i t with
  | nil => simp [db_insert_loop, policyFiles, persist]
  | cons fn rest ih =>
    have hfn := hres fn (List.mem_cons_self _ _)
    have ih2 := fun j u => ih (fun x hx => hres x (List.mem_cons_of_mem _ hx)) j u
    by_cases hb : fx.bindsOk i = true
    · by_cases hs : fx.step i = SQLITE_DONE
      · obtain ⟨p, hp⟩ := Option.isSome_iff_exists.1 hfn
        rw [db_insert_loop_write G cwd flags dir fx i fn p rest t hp hb hs,
          policyFiles_write fx i fn rest hb hs]
        obtain ⟨h1, h2, h3⟩ := ih2 (i + 1) (sql_insert_or_replace t cwd p flags)
        simp only [afterWrite_written, afterWrite_db, afterWrite_exit, List.map_cons, hp,
          Option.getD_some]
        refine ⟨by rw [h1], ?_, h3⟩
        rw [h2]
        simp [persist]
      · rw [db_insert_loop_step_fail G cwd flags dir fx i fn rest t hfn hb hs,
          policyFiles_step_fail fx i fn rest hb hs]
        simp [persist]
    · have hb : fx.bindsOk i = false := by simpa using hb
      rw [db_insert_loop_bind_fail G cwd flags dir fx i fn rest t hfn hb,
        policyFiles_bind_fail fx i fn rest hb]
      simpa using ih2 (i + 1) t

/-- C9 (per-file failure policy of `db_insert`): for every list of references
that resolve to a path and every assignment of bind and step results to the
positions of the list, the rows written are exactly those of the files that
have no bind failure, whose step returns `SQLITE_DONE`, and that come before
the first file whose step returns another result; the table after the call is
the table before it with exactly these rows written, so rows written before a
failure stay; and the call returns. -/
theorem db_insert_failure_policy (G : GLib F) (cwd : String) (fx : InsertFx) (t : Table)
    (files argv : List String)
    (hprep : fx.prepare = SQLITE_OK)
    (hres : ∀ fn ∈ files, (abspath G cwd fn).isSome) :
    (db_insert G cwd fx t files argv).written
      = ((((List.enumFrom 0 files).takeWhile (fun p => !fx.stepFails p.1)).filter
          (fun p => fx.bindsOk p.1 && decide (fx.step p.1 = SQLITE_DONE))).map Prod.snd).map
          (fun fn => mkRow cwd (storedPath G cwd fn) (g_strjoinv " " argv)) ∧
    (db_insert G cwd fx t files argv).db
      = persist t cwd (g_strjoinv " " argv)
          (((((List.enumFrom 0 files).takeWhile (fun p => !fx.stepFails p.1)).filter
            (fun p => fx.bindsOk p.1 && decide (fx.step p.1 = SQLITE_DONE))).map Prod.snd).map
            (storedPath G cwd)) ∧
    (db_insert G cwd fx t files argv).exit = Exit.returned := by
  have h := db_insert_loop_policy G cwd (g_strjoinv " " argv) (G.g_file_new_for_path cwd) fx
    files hres 0 t
  have hq : db_insert G cwd fx t files argv
      = db_insert_loop G cwd (g_strjoinv " " argv) (G.g_file_new_for_path cwd) fx 0 files t := by
    simp [db_insert, hprep]
  rw [hq]
  exact h

/-- Witness for C9: of five files, the second has a bind failure and the
fourth a step failure; the rows of the first and the third are written. -/
theorem db_insert_failure_policy_witness :
    (exampleFx.prepare = SQLITE_OK ∧
      ∀ fn ∈ ["a.c", "b.c", "c.c", "d.c", "e.c"], (abspath (posixGLib "/p") "/p" fn).isSome) ∧
    (db_insert (posixGLib "/p") "/p" exampleFx [] ["a.c", "b.c", "c.c", "d.c", "e.c"]
      ["-O2", "-Wall"]).written
      = [mkRow "/p" "/p/a.c" "-O2 -Wall", mkRow "/p" "/p/c.c" "-O2 -Wall"] ∧
    (db_insert (posixGLib "/p") "/p" exampleFx [] ["a.c", "b.c", "c.c", "d.c", "e.c"]
      ["-O2", "-Wall"]).db
      = [mkRow "/p" "/p/a.c" "-O2 -Wall", mkRow "/p" "/p/c.c" "-O2 -Wall"] ∧
    (db_insert (posixGLib "/p") "/p" exampleFx [] ["a.c", "b.c", "c.c", "d.c", "e.c"]
      ["-O2", "-Wall"]).exit = Exit.returned :=
  ⟨⟨rfl, by decide⟩,
   (db_insert_failure_policy (posixGLib "/p") "/p" exampleFx []
      ["a.c", "b.c", "c.c", "d.c", "e.c"] ["-O2", "-Wall"] rfl (by decide)).1.trans
      (by decide),
   (db_insert_failure_policy (posixGLib "/p") "/p" exampleFx []
      ["a.c", "b.c", "c.c", "d.c", "e.c"] ["-O2", "-Wall"] rfl (by decide)).2.1.trans
      (by decide),
   (db_insert_failure_policy (posixGLib "/p") "/p" exampleFx []
      ["a.c", "b.c", "c.c", "d.c", "e.c"] ["-O2", "-Wall"] rfl (by decide)).2.2⟩

/-- The string `g_strjoinv` builds is the tokens joined with the separator. -/
theorem g_strjoinv_eq_intercalate (sep : String) (l : List String) :
    g_strjoinv sep l = String.intercalate sep l := by
  have go : ∀ (rest : List String) (acc : String),
      rest.foldl (fun a x => a ++ sep ++ x) acc = String.intercalate.go acc sep rest := by
    intro rest
    induction rest with
    | nil => intro acc; rfl
    | cons x rest ih => intro acc; exact ih (acc ++ sep ++ x)
  cases l with
  | nil => rfl
  | cons a rest => exact go rest a

/-- What every row written by the insert loop looks like, and where the rows
come from: their file values are, in order, paths of some of the references. -/
theorem db_insert_loop_rows (G : GLib F) (cwd flags : String) (dir : F) (fx : InsertFx)
    (files : List String) (i : Nat) (t : Table) :
    (∀ r ∈ (db_insert_loop G cwd flags dir fx i files t).written,
      r.dir = some cwd ∧ r.flags = some flags ∧ r.file.isSome = true) ∧
    ((db_insert_loop G cwd flags dir fx i files t).written.map Row.file).Sublist
      (files.map (fun fn => G.g_file_get_path (resolve_file G dir fn))) := by
  induction files generalizing i t with
  | nil => simp [db_insert_loop]
  | cons fn rest ih =>
    have hskip : (∀ r ∈ ((db_insert_loop G cwd flags dir fx (i + 1) rest t).afterSkip
          fn).written, r.dir = some cwd ∧ r.flags = some flags ∧ r.file.isSome = true) ∧
        (((db_insert_loop G cwd flags dir fx (i + 1) rest t).afterSkip fn).written.map
          Row.file).Sublist
          ((fn :: rest).map (fun fn => G.g_file_get_path (resolve_file G dir fn))) := by
      simp only [afterSkip_written, List.map_cons]
      exact ⟨(ih (i + 1) t).1, (ih (i + 1) t).2.cons _⟩
    by_cases h1 : fx.bind i 1 = SQLITE_OK
    · cases hp : G.g_file_get_path (resolve_file G dir fn) with
      | none =>
        rw [db_insert_loop_abort G cwd flags dir fx i fn rest t h1 hp]
        simp
      | some p =>
        have hres : (G.g_file_get_path (resolve_file G dir fn)).isSome := by simp [hp]
        by_cases hb : fx.bindsOk i = true
        · by_cases hs : fx.step i = SQLITE_DONE
          · rw [db_insert_loop_write G cwd flags dir fx i fn p rest t hp hb hs]
            simp only [afterWrite_written, List.map_cons, List.mem_cons]
            refine ⟨?_, ?_⟩
            · intro r hr
              rcases hr with h | h
              · subst h
                simp [mkRow]
              · exact (ih _ _).1 r h
            · rw [hp]
              exact (ih _ _).2.cons₂ _
          · rw [db_insert_loop_step_fail G cwd flags dir fx i fn rest t hres hb hs]
            simp
        · have hb : fx.bindsOk i = false := by simpa using hb
          rw [db_insert_loop_bind_fail G cwd flags dir fx i fn rest t hres hb]
          exact hskip
    · rw [db_insert_loop_bind1_fail G cwd flags dir fx i fn rest t h1]
      exact hskip

/-- C7 (row content of an insert): every row `db_insert` writes in one call has
`dir` equal to the base directory, `file` equal to the resolved path of one of
the references (the rows follow the order of the references), and `flags`
equal to the tokens of `argv` joined in order with one space between
consecutive tokens, the same string for every row; for an empty `argv` that
string is empty. -/
theorem db_insert_row_content (G : GLib F) (cwd : String) (fx : InsertFx) (t : Table)
    (files argv : List String) :
    (∀ r ∈ (db_insert G cwd fx t files argv).written,
      r.dir = some cwd ∧
      (∃ fn ∈ files, r.file = abspath G cwd fn ∧ r.file.isSome = true) ∧
      r.flags = some (String.intercalate " " argv)) ∧
    ((db_insert G cwd fx t files argv).written.map Row.file).Sublist
      (files.map (abspath G cwd)) ∧
    String.intercalate " " ([] : List String) = "" := by
  unfold db_insert
  split_ifs with hprep
  · simp
    rfl
  · have h := db_insert_loop_rows G cwd (g_strjoinv " " argv) (G.g_file_new_for_path cwd) fx
      files 0 t
    refine ⟨?_, h.2, rfl⟩
    intro r hr
    obtain ⟨h1, h2, h3⟩ := h.1 r hr
    refine ⟨h1, ?_, by rw [h2, g_strjoinv_eq_intercalate]⟩
    have hmem : r.file ∈ files.map (abspath G cwd) :=
      h.2.subset (List.mem_map_of_mem _ hr)
    obtain ⟨fn, hfn, hfe⟩ := List.mem_map.1 hmem
    exact ⟨fn, hfn, hfe.symm, h3⟩

/-- Witness for C7: in a call with five references and the flag tokens `-O2`,
`-Wall`, the row written for `c.c` has the base directory, the resolved path
and the joined flags. -/
theorem db_insert_row_content_witness :
    mkRow "/p" "/p/c.c" "-O2 -Wall" ∈
      (db_insert (posixGLib "/p") "/p" exampleFx [] ["a.c", "b.c", "c.c", "d.c", "e.c"]
        ["-O2", "-Wall"]).written ∧
    ((mkRow "/p" "/p/c.c" "-O2 -Wall").dir = some "/p" ∧
      (∃ fn ∈ ["a.c", "b.c", "c.c", "d.c", "e.c"],
        (mkRow "/p" "/p/c.c" "-O2 -Wall").file = abspath (posixGLib "/p") "/p" fn ∧
        (mkRow "/p" "/p/c.c" "-O2 -Wall").file.isSome = true) ∧
      (mkRow "/p" "/p/c.c" "-O2 -Wall").flags = some "-O2 -Wall") :=
  ⟨by decide,
   (db_insert_row_content (posixGLib "/p") "/p" exampleFx []
      ["a.c", "b.c", "c.c", "d.c", "e.c"] ["-O2", "-Wall"]).1 _ (by decide)⟩

/-- After an insert-or-replace the table holds exactly one row with the key,
the row just written. -/
theorem filter_hasKey_insert_self (t : Table) (dir file flags : String) :
    (sql_insert_or_replace t dir file flags).filter (fun r => r.hasKey dir file)
      = [mkRow dir file flags] := by
  have hnil : (t.filter (fun r => !r.hasKey dir file)).filter (fun r => r.hasKey dir file)
      = [] := by
    rw [List.filter_filter, List.filter_eq_nil_iff]
    intro r _
    simp
  have hrow : (mkRow dir file flags).hasKey dir file = true := by
    simp [mkRow, Row.hasKey]
  simp [sql_insert_or_replace, List.filter_append, hnil, hrow]

/-- A call of `db_insert` for one reference, when prepare, the binds and the
step succeed: the row is written and the call returns. -/
theorem db_insert_single (G : GLib F) (cwd ref p : String) (fx : InsertFx) (t : Table)
    (argv : List String) (hprep : fx.prepare = SQLITE_OK) (hb : fx.bindsOk 0 = true)
    (hs : fx.step 0 = SQLITE_DONE) (hp : abspath G cwd ref = some p) :
    db_insert G cwd fx t [ref] argv
      = { db := sql_insert_or_replace t cwd p (g_strjoinv " " argv),
          written := [mkRow cwd p (g_strjoinv " " argv)], skipped := [], failed := none,
          exit := .returned } := by
  have hq : db_insert G cwd fx t [ref] argv
      = db_insert_loop G cwd (g_strjoinv " " argv) (G.g_file_new_for_path cwd) fx 0 [ref] t := by
    simp [db_insert, hprep]
  rw [hq, db_insert_loop_write G cwd _ _ fx 0 ref p [] t hp hb hs]
  simp [db_insert_loop, InsertResult.afterWrite]

/-- C1 (upsert replace semantics): for every table, every key `(dir, file)`
(the current directory and the path a reference resolves to) and every two
flag lists, running `db_insert` for that key with the first flags and then
again for the same key with the second flags, all binds and steps succeeding,
leaves exactly one row with that key, and its flags are the second flags. -/
theorem db_insert_upsert_replace (G : GLib F) (cwd ref p : String) (fx1 fx2 : InsertFx)
    (t : Table) (argv1 argv2 : List String)
    (hp : abspath G cwd ref = some p)
    (h1 : fx1.prepare = SQLITE_OK ∧ fx1.bindsOk 0 = true ∧ fx1.step 0 = SQLITE_DONE)
    (h2 : fx2.prepare = SQLITE_OK ∧ fx2.bindsOk 0 = true ∧ fx2.step 0 = SQLITE_DONE) :
    ((db_insert G cwd fx2 (db_insert G cwd fx1 t [ref] argv1).db [ref] argv2).db.filter
      (fun r => r.hasKey cwd p)) = [mkRow cwd p (g_strjoinv " " argv2)] ∧
    ((db_insert G cwd fx1 t [ref] argv1).db.filter
      (fun r => r.hasKey cwd p)) = [mkRow cwd p (g_strjoinv " " argv1)] := by
  rw [db_insert_single G cwd ref p fx2 _ argv2 h2.1 h2.2.1 h2.2.2 hp,
    db_insert_single G cwd ref p fx1 t argv1 h1.1 h1.2.1 h1.2.2 hp]
  exact ⟨filter_hasKey_insert_self _ _ _ _, filter_hasKey_insert_self _ _ _ _⟩

/-- Witness for C1: key `("/a", "/a/x.c")` written with `-O2` and then with
`-O3`, on a table that already holds another row, leaves one row for the key,
with flags `-O3`. -/
theorem db_insert_upsert_replace_witness :
    (abspath (posixGLib "/a") "/a" "/a/x.c" = some "/a/x.c" ∧
      InsertFx.ok.prepare = SQLITE_OK ∧ InsertFx.ok.bindsOk 0 = true ∧
      InsertFx.ok.step 0 = SQLITE_DONE) ∧
    ((db_insert (posixGLib "/a") "/a" InsertFx.ok
        (db_insert (posixGLib "/a") "/a" InsertFx.ok exampleTable ["/a/x.c"] ["-O2"]).db
        ["/a/x.c"] ["-O3"]).db.filter (fun r => r.hasKey "/a" "/a/x.c"))
      = [mkRow "/a" "/a/x.c" "-O3"] ∧
    ((db_insert (posixGLib "/a") "/a" InsertFx.ok exampleTable ["/a/x.c"] ["-O2"]).db.filter
        (fun r => r.hasKey "/a" "/a/x.c"))
      = [mkRow "/a" "/a/x.c" "-O2"] :=
  ⟨by decide,
   db_insert_upsert_replace (posixGLib "/a") "/a" "/a/x.c" "/a/x.c" InsertFx.ok InsertFx.ok
     exampleTable ["-O2"] ["-O3"] (by decide) (by decide) (by decide)⟩

/-- C6 (path of the stored file value): for every base directory and file
reference, when the call goes through, the file value `db_insert` stores is
the path of `g_file_new_for_path(ref)` if the reference is absolute (the
reference itself, up to the normalization of that function) and otherwise the
path of the reference resolved against the base directory.  In the POSIX model
of the path functions an absolute reference in normal form is stored
unchanged, and a relative reference in normal form is stored as the base
directory followed by the reference. -/
theorem db_insert_stores_resolved_path (G : GLib F) (cwd ref p : String) (fx : InsertFx)
    (t : Table) (argv : List String)
    (hprep : fx.prepare = SQLITE_OK) (hb : fx.bindsOk 0 = true) (hs : fx.step 0 = SQLITE_DONE)
    (hp : (if G.g_path_is_absolute ref = true then
            G.g_file_get_path (G.g_file_new_for_path ref)
          else
            G.g_file_get_path
              (G.g_file_resolve_relative_path (G.g_file_new_for_path cwd) ref)) = some p) :
    ((db_insert G cwd fx t [ref] argv).written.map Row.file = [some p] ∧
     ((db_insert G cwd fx t [ref] argv).db.filter (fun r => r.hasKey cwd p)).map Row.file
       = [some p]) ∧
    (∀ (base : String) (comps : List (List Char)) (t2 : Table) (flags : List String),
      (∀ c ∈ comps, PlainComponent c) →
      (db_insert (posixGLib base) base InsertFx.ok t2 [pathOf comps] flags).written.map
        Row.file = [some (pathOf comps)]) ∧
    (∀ (cs1 cs2 : List (List Char)) (t2 : Table) (flags : List String),
      (∀ c ∈ cs1, PlainComponent c) → (∀ c ∈ cs2, PlainComponent c) → cs2 ≠ [] →
      (db_insert (posixGLib (pathOf cs1)) (pathOf cs1) InsertFx.ok t2 [relPathOf cs2]
        flags).written.map Row.file = [some (pathOf (cs1 ++ cs2))]) := by
  have hp2 : abspath G cwd ref = some p := by
    rw [← hp]
    unfold abspath resolve_file
    split_ifs <;> rfl
  refine ⟨?_, ?_, ?_⟩
  · rw [db_insert_single G cwd ref p fx t argv hprep hb hs hp2]
    simp [filter_hasKey_insert_self, mkRow]
  · intro base comps t2 flags h
    rw [db_insert_single (posixGLib base) base _ _ InsertFx.ok t2 flags rfl (by decide) rfl
      (abspath_posix_absolute base comps h)]
    simp [mkRow]
  · intro cs1 cs2 t2 flags h1 h2 hne
    rw [db_insert_single (posixGLib (pathOf cs1)) (pathOf cs1) _ _ InsertFx.ok t2 flags rfl
      (by decide) rfl (abspath_posix_relative cs1 cs2 h1 h2 hne)]
    simp [mkRow]

/-- Witness for C6: with base `/project`, the reference `sub/x.c` is stored as
`/project/sub/x.c` and the absolute reference `/other/y.c` as `/other/y.c`. -/
theorem db_insert_stores_resolved_path_witness :
    ((db_insert (posixGLib "/project") "/project" InsertFx.ok [] ["sub/x.c"]
        ["-O2"]).written.map Row.file = [some "/project/sub/x.c"] ∧
     ((db_insert (posixGLib "/project") "/project" InsertFx.ok [] ["sub/x.c"]
        ["-O2"]).db.filter (fun r => r.hasKey "/project" "/project/sub/x.c")).map Row.file
        = [some "/project/sub/x.c"]) ∧
    ((db_insert (posixGLib "/project") "/project" InsertFx.ok [] ["/other/y.c"]
        ["-O2"]).written.map Row.file = [some "/other/y.c"] ∧
     ((db_insert (posixGLib "/project") "/project" InsertFx.ok [] ["/other/y.c"]
        ["-O2"]).db.filter (fun r => r.hasKey "/project" "/other/y.c")).map Row.file
        = [some "/other/y.c"]) :=
  ⟨(db_insert_stores_resolved_path (posixGLib "/project") "/project" "sub/x.c"
     "/project/sub/x.c" InsertFx.ok [] ["-O2"] rfl (by decide) rfl (by decide)).1,
   (db_insert_stores_resolved_path (posixGLib "/project") "/project" "/other/y.c"
     "/other/y.c" InsertFx.ok [] ["-O2"] rfl (by decide) rfl (by decide)).1⟩

end InsertLemmas

end Cdcc
